import Mathlib

/-!
Shallow embedding of the graph-based neutrino reconstruction notebook
(`neutrino_reco.ipynb`).  The notebook computes elementwise over float
tensors; we model one tensor element as a value of type `V`: either NaN,
one of the two infinities, or a finite real number.  The arithmetic on `V`
follows the IEEE-754 elementwise semantics of the numpy/TensorFlow ops the
notebook uses; `maxV`/`minV` (backing `tf.clip_by_value`) propagate NaN, as
`numpy.maximum`/`numpy.minimum` document.  The optimizer
(`tf.keras.optimizers`, external library code) is modelled abstractly: an
arbitrary state type `S` and an arbitrary update function `S → V → S × V`;
the notebook's own code (the projection `vx_constrain`, the 100-iteration
budget, the NaN catch, branch selection) is translated literally.
-/

namespace NuReco

/-- A float value: NaN, +infinity, -infinity, or a finite real. -/
inductive V where
  | nan : V
  | pinf : V
  | ninf : V
  | fin : ℝ → V

namespace V

/-- Test for NaN (`tf.math.is_nan`). -/
def isNan : V → Bool
  | nan => true
  | _ => false

/-- IEEE addition. -/
def add : V → V → V
  | nan, _ => nan
  | _, nan => nan
  | pinf, ninf => nan
  | ninf, pinf => nan
  | pinf, _ => pinf
  | _, pinf => pinf
  | ninf, _ => ninf
  | _, ninf => ninf
  | fin x, fin y => fin (x + y)

/-- IEEE negation. -/
def neg : V → V
  | nan => nan
  | pinf => ninf
  | ninf => pinf
  | fin x => fin (-x)

/-- IEEE subtraction: `a - b = a + (-b)`. -/
def sub (a b : V) : V := add a (neg b)

/-- IEEE multiplication (`inf * 0 = nan`). -/
noncomputable def mul : V → V → V
  | nan, _ => nan
  | _, nan => nan
  | pinf, pinf => pinf
  | pinf, ninf => ninf
  | ninf, pinf => ninf
  | ninf, ninf => pinf
  | pinf, fin y => if 0 < y then pinf else if y < 0 then ninf else nan
  | fin x, pinf => if 0 < x then pinf else if x < 0 then ninf else nan
  | ninf, fin y => if 0 < y then ninf else if y < 0 then pinf else nan
  | fin x, ninf => if 0 < x then ninf else if x < 0 then pinf else nan
  | fin x, fin y => fin (x * y)

/-- IEEE division (no signed zero: `x/0` takes the sign of `x`, `0/0 = nan`). -/
noncomputable def div : V → V → V
  | nan, _ => nan
  | _, nan => nan
  | pinf, pinf => nan
  | pinf, ninf => nan
  | ninf, pinf => nan
  | ninf, ninf => nan
  | pinf, fin y => if y < 0 then ninf else pinf
  | ninf, fin y => if y < 0 then pinf else ninf
  | fin _, pinf => fin 0
  | fin _, ninf => fin 0
  | fin x, fin y =>
      if y = 0 then (if 0 < x then pinf else if x < 0 then ninf else nan)
      else fin (x / y)

/-- The square `x ** 2`. -/
def sq : V → V
  | nan => nan
  | pinf => pinf
  | ninf => pinf
  | fin x => fin (x ^ 2)

/-- The square root `x ** 0.5`: NaN on negative finite values and on `-inf`. -/
noncomputable def sqrtV : V → V
  | nan => nan
  | pinf => pinf
  | ninf => nan
  | fin x => if x < 0 then nan else fin (Real.sqrt x)

/-- Absolute value (`tf.abs`). -/
def absV : V → V
  | nan => nan
  | pinf => pinf
  | ninf => pinf
  | fin x => fin |x|

/-- IEEE comparison `a <= b`: false whenever either side is NaN. -/
noncomputable def le : V → V → Bool
  | nan, _ => false
  | _, nan => false
  | ninf, _ => true
  | _, pinf => true
  | pinf, _ => false
  | _, ninf => false
  | fin x, fin y => decide (x ≤ y)

/-- IEEE comparison `a < b`: false whenever either side is NaN. -/
noncomputable def lt : V → V → Bool
  | nan, _ => false
  | _, nan => false
  | pinf, _ => false
  | _, pinf => true
  | ninf, ninf => false
  | ninf, _ => true
  | _, ninf => false
  | fin x, fin y => decide (x < y)

/-- NaN-propagating elementwise maximum (as `numpy.maximum`). -/
def maxV : V → V → V
  | nan, _ => nan
  | _, nan => nan
  | pinf, _ => pinf
  | _, pinf => pinf
  | ninf, y => y
  | x, ninf => x
  | fin x, fin y => fin (max x y)

/-- NaN-propagating elementwise minimum (as `numpy.minimum`). -/
def minV : V → V → V
  | nan, _ => nan
  | _, nan => nan
  | ninf, _ => ninf
  | _, ninf => ninf
  | pinf, y => y
  | x, pinf => x
  | fin x, fin y => fin (min x y)

/-- `tf.clip_by_value t lo hi`. -/
def clip (t lo hi : V) : V := minV (maxV t lo) hi

end V

noncomputable instance : Add V := ⟨V.add⟩
noncomputable instance : Sub V := ⟨V.sub⟩
noncomputable instance : Neg V := ⟨V.neg⟩
noncomputable instance : Mul V := ⟨V.mul⟩
noncomputable instance : Div V := ⟨V.div⟩

/-!  The kinematics library (notebook cell 4), translated line by line. -/

/-- `calc_vy(vx, lepx, lepy, mc, sign, save)`: the y-component solver.
`s = (mc**2/2 * (lepx**2 + lepy**2) * (2*lepx*vx + mc**2/2)) ** 0.5`;
with `save` the radicand's root is floored at 0 (`tf.where(s > 0, s, 0)`);
result `(lepx*lepy*vx + lepy*mc**2/2 + sign*s) / lepx**2`. -/
noncomputable def calc_vy (vx lepx lepy mc : V) (sign : V) (save : Bool) : V :=
  let s := V.sqrtV (mc.sq / V.fin 2 * (lepx.sq + lepy.sq) * (V.fin 2 * lepx * vx + mc.sq / V.fin 2))
  let s := if save then (if V.lt (V.fin 0) s then s else V.fin 0) else s
  (lepx * lepy * vx + lepy * mc.sq / V.fin 2 + sign * s) / lepx.sq

/-- `shift(vx, vy, metx, mety) = (metx - vx)**2 + (mety - vy)**2`. -/
noncomputable def shift (vx vy metx mety : V) : V :=
  (metx - vx).sq + (mety - vy).sq

/-- `get_k(lepx, lepy, vx, vy, mc) = mc**2/2 + lepx*vx + lepy*vy`. -/
noncomputable def get_k (lepx lepy vx vy mc : V) : V :=
  mc.sq / V.fin 2 + lepx * vx + lepy * vy

/-- `get_pt(px, py) = (px**2 + py**2) ** 0.5`. -/
noncomputable def get_pt (px py : V) : V :=
  V.sqrtV (px.sq + py.sq)

/-- `get_h(lepx, lepy, metx, mety, mc) = (leppt * metpt / k) ** 2`. -/
noncomputable def get_h (lepx lepy metx mety : V) (mc : V) : V :=
  let k := get_k lepx lepy metx mety mc
  let leppt := get_pt lepx lepy
  let metpt := get_pt metx mety
  (leppt * metpt / k).sq

/-!  The analytic solver (notebook cell 6). -/

/-- The `+` root `vzp = k/leppt**2 * (lepz + lepe*(1 - h)**0.5)` of the
analytic solver, written out (definitionally the value the solver computes). -/
noncomputable def vzPlus (lepe lepx lepy lepz vx vy mc : V) : V :=
  get_k lepx lepy vx vy mc / (get_pt lepx lepy).sq *
    (lepz + lepe * V.sqrtV (V.fin 1 - get_h lepx lepy vx vy mc))

/-- The `-` root `vzn = k/leppt**2 * (lepz - lepe*(1 - h)**0.5)`. -/
noncomputable def vzMinus (lepe lepx lepy lepz vx vy mc : V) : V :=
  get_k lepx lepy vx vy mc / (get_pt lepx lepy).sq *
    (lepz - lepe * V.sqrtV (V.fin 1 - get_h lepx lepy vx vy mc))

/-- `neutrino_reco_real`: passes `(vx, vy)` through and keeps whichever of
the two roots passes `tf.abs(vzp) <= tf.abs(vzn)`. -/
noncomputable def neutrino_reco_real (lepe lepx lepy lepz vx vy mc : V) : V × V × V :=
  let vzp := vzPlus lepe lepx lepy lepz vx vy mc
  let vzn := vzMinus lepe lepx lepy lepz vx vy mc
  let vz := if V.le vzp.absV vzn.absV then vzp else vzn
  (vx, vy, vz)

/-!  The numeric solver (notebook cell 8). -/

/-- `vx_constrain(vx, lepx, mc)`: clip `vx` at `constr_val = -(mc**2)/(4*lepx)`,
from below when `lepx >= 0`, from above otherwise. -/
noncomputable def vx_constrain (vx lepx mc : V) : V :=
  let constr_val := V.neg mc.sq / (V.fin 4 * lepx)
  if V.le (V.fin 0) lepx then V.clip vx constr_val V.pinf
  else V.clip vx V.ninf constr_val

/-- One hundred optimizer iterations (`optimize1`/`optimize2`): each iteration
performs `optimizer.minimize` (modelled by the abstract update `step`, which
also carries the optimizer's internal state) followed by the projection
`vx.assign(vx_constrain(vx, lepx, mc))`. -/
noncomputable def optimizeLoop {S : Type} (step : S → V → S × V) (lepx mc : V) :
    ℕ → S × V → S × V
  | 0, sv => sv
  | n + 1, sv =>
      let sv2 := step sv.1 sv.2
      optimizeLoop step lepx mc n (sv2.1, vx_constrain sv2.2 lepx mc)

/-- `optimize1(optimizer, vx, ...)`: run the loop for the fixed budget of
100 iterations from optimizer state `s0` and iterate `vx0`. -/
noncomputable def optimize1 {S : Type} (step : S → V → S × V) (s0 : S) (vx0 lepx mc : V) :
    S × V :=
  optimizeLoop step lepx mc 100 (s0, vx0)

/-- The NaN catch of `neutrino_reco_complex`:
`vx = tf.where(tf.math.is_nan(vx), -(mc**2)/(4*lepx), vx)`. -/
noncomputable def nanCatch (vx lepx mc : V) : V :=
  let constr_val := V.neg mc.sq / (V.fin 4 * lepx)
  if vx.isNan then constr_val else vx

/-- The part of `neutrino_reco_complex` after the two optimizations: NaN
catch, y-reconstruction for both sign branches, branch selection by smaller
`shift`, and `vz = k * lepz / leppt**2` at the chosen `(vx, vy)`. -/
noncomputable def complexTail (lepz lepx lepy metx mety mc vx1in vx2in : V) : V × V × V :=
  let vx1 := nanCatch vx1in lepx mc
  let vx2 := nanCatch vx2in lepx mc
  let vy1 := calc_vy vx1 lepx lepy mc (V.fin 1) true
  let vy2 := calc_vy vx2 lepx lepy mc (V.fin (-1)) true
  let diff1 := shift vx1 vy1 metx mety
  let diff2 := shift vx2 vy2 metx mety
  let vx := if V.le diff1 diff2 then vx1 else vx2
  let vy := if V.le diff1 diff2 then vy1 else vy2
  let k := get_k lepx lepy vx vy mc
  let leppt := get_pt lepx lepy
  let vz := k * lepz / leppt.sq
  (vx, vy, vz)

/-- `neutrino_reco_complex`: optimize both sign branches from their seeds and
apply the tail. -/
noncomputable def neutrino_reco_complex {S : Type} (step1 step2 : S → V → S × V)
    (s1 s2 : S) (lepe lepx lepy lepz metx mety vx1v vx2v mc : V) : V × V × V :=
  complexTail lepz lepx lepy metx mety mc
    (optimize1 step1 s1 vx1v lepx mc).2 (optimize1 step2 s2 vx2v lepx mc).2

/-!  The event combiner (notebook cell 10). -/

/-- The clamped lepton invariant mass:
`lepm = (lepe**2 - lepx**2 - lepy**2 - lepz**2) ** 0.5`, with NaN (negative
radicand) replaced by 0. -/
noncomputable def lepmClamped (lepe lepx lepy lepz : V) : V :=
  let lepm := V.sqrtV (lepe.sq - lepx.sq - lepy.sq - lepz.sq)
  if lepm.isNan then V.fin 0 else lepm

/-- The lepton-mass-corrected constraint `mc = (mc**2 - lepm**2) ** 0.5`. -/
noncomputable def mcEff (lepe lepx lepy lepz mc : V) : V :=
  V.sqrtV (mc.sq - (lepmClamped lepe lepx lepy lepz).sq)

/-- `neutrino_reco`: correct the constraint for the lepton mass, run both
solvers, and select elementwise by `h <= 1` (`h` computed with the corrected
constraint). -/
noncomputable def neutrino_reco {S : Type} (step1 step2 : S → V → S × V) (s1 s2 : S)
    (lepe lepx lepy lepz metx mety vx1v vx2v mc : V) : V × V × V :=
  let mc2 := mcEff lepe lepx lepy lepz mc
  let r := neutrino_reco_real lepe lepx lepy lepz metx mety mc2
  let c := neutrino_reco_complex step1 step2 s1 s2 lepe lepx lepy lepz metx mety vx1v vx2v mc2
  let h := get_h lepx lepy metx mety mc2
  (if V.le h (V.fin 1) then r.1 else c.1,
   if V.le h (V.fin 1) then r.2.1 else c.2.1,
   if V.le h (V.fin 1) then r.2.2 else c.2.2)

/-!  The layer wrapper (notebook cell 12): per-event view of the
`NeutrinoReco` Keras layer.  The layer's persistent state is the pair of
iterate variables `vx1`, `vx2` and the two optimizers' internal variables. -/

/-- One event's observables `[lepe, lepx, lepy, lepz, metx, mety]`. -/
structure Event where
  lepe : V
  lepx : V
  lepy : V
  lepz : V
  metx : V
  mety : V

/-- The layer's persistent per-event state: iterate variables and optimizer
internal state for each sign branch. -/
structure LayerState (S : Type) where
  vx1 : V
  vx2 : V
  opt1 : S
  opt2 : S

/-- `reset_optimizer`: assign zeros to every optimizer variable. -/
def resetOptimizer {S : Type} (zeroS : S) (st : LayerState S) : LayerState S :=
  { st with opt1 := zeroS, opt2 := zeroS }

/-- The state at the start of `call`: optimizer reset, and both iterate
variables assigned `metx`. -/
def preparedState {S : Type} (zeroS : S) (st : LayerState S) (e : Event) : LayerState S :=
  { resetOptimizer zeroS st with vx1 := e.metx, vx2 := e.metx }

/-- `NeutrinoReco.call` (output view): reset the optimizers, seed both
iterates with `metx`, and run `neutrino_reco`. -/
noncomputable def layerCall {S : Type} (zeroS : S) (step1 step2 : S → V → S × V)
    (mc : V) (st : LayerState S) (e : Event) : V × V × V :=
  let st1 := preparedState zeroS st e
  neutrino_reco step1 step2 st1.opt1 st1.opt2 e.lepe e.lepx e.lepy e.lepz e.metx e.mety
    st1.vx1 st1.vx2 mc

/-- `NeutrinoReco.call` together with the persistent state it leaves behind:
the two variables hold the optimized iterates and the optimizers their final
internal state. -/
noncomputable def layerCallFull {S : Type} (zeroS : S) (step1 step2 : S → V → S × V)
    (mc : V) (st : LayerState S) (e : Event) : LayerState S × (V × V × V) :=
  let st1 := preparedState zeroS st e
  let mc2 := mcEff e.lepe e.lepx e.lepy e.lepz mc
  let o1 := optimize1 step1 st1.opt1 st1.vx1 e.lepx mc2
  let o2 := optimize1 step2 st1.opt2 st1.vx2 e.lepx mc2
  (⟨o1.2, o2.2, o1.1, o2.1⟩, layerCall zeroS step1 step2 mc st e)

/-- The batch driver: the elementwise graph evaluates every event
independently. -/
noncomputable def batchRun {S : Type} (zeroS : S) (step1 step2 : S → V → S × V)
    (mc : V) (st : LayerState S) (es : List Event) : List (V × V × V) :=
  es.map (layerCall zeroS step1 step2 mc st)

end NuReco

namespace NuReco

/-!  Evaluation lemmas for the value domain: finite arithmetic reduces to
real arithmetic, and NaN propagates through every operation. -/

theorem fin_add (x y : ℝ) : V.fin x + V.fin y = V.fin (x + y) := rfl

theorem fin_neg (x : ℝ) : V.neg (V.fin x) = V.fin (-x) := rfl

theorem fin_sub (x y : ℝ) : V.fin x - V.fin y = V.fin (x - y) := by
  rw [sub_eq_add_neg x y]; rfl

theorem fin_mul (x y : ℝ) : V.fin x * V.fin y = V.fin (x * y) := rfl

theorem fin_div {y : ℝ} (x : ℝ) (hy : y ≠ 0) : V.fin x / V.fin y = V.fin (x / y) := by
  show V.div _ _ = _
  simp [V.div, hy]

theorem fin_sq (x : ℝ) : (V.fin x).sq = V.fin (x ^ 2) := rfl

theorem fin_sqrtV {x : ℝ} (hx : 0 ≤ x) : V.sqrtV (V.fin x) = V.fin (Real.sqrt x) := by
  simp [V.sqrtV, not_lt.2 hx]

theorem fin_sqrtV_neg {x : ℝ} (hx : x < 0) : V.sqrtV (V.fin x) = V.nan := by
  simp [V.sqrtV, hx]

theorem fin_absV (x : ℝ) : (V.fin x).absV = V.fin |x| := rfl

theorem fin_le (x y : ℝ) : V.le (V.fin x) (V.fin y) = decide (x ≤ y) := rfl

theorem fin_lt (x y : ℝ) : V.lt (V.fin x) (V.fin y) = decide (x < y) := rfl

theorem fin_maxV (x y : ℝ) : V.maxV (V.fin x) (V.fin y) = V.fin (max x y) := rfl

theorem fin_minV (x y : ℝ) : V.minV (V.fin x) (V.fin y) = V.fin (min x y) := rfl

theorem isNan_fin (x : ℝ) : (V.fin x).isNan = false := rfl

theorem isNan_pinf : V.pinf.isNan = false := rfl

theorem fin_injective {x y : ℝ} (h : V.fin x = V.fin y) : x = y := by
  cases h; rfl

theorem nan_add (v : V) : V.nan + v = V.nan := by cases v <;> rfl

theorem add_nan (v : V) : v + V.nan = V.nan := by cases v <;> rfl

theorem nan_sub (v : V) : V.nan - v = V.nan := by cases v <;> rfl

theorem sub_nan (v : V) : v - V.nan = V.nan := by cases v <;> rfl

theorem nan_mul (v : V) : V.nan * v = V.nan := by cases v <;> rfl

theorem mul_nan (v : V) : v * V.nan = V.nan := by cases v <;> rfl

theorem nan_div (v : V) : V.nan / v = V.nan := by cases v <;> rfl

theorem div_nan (v : V) : v / V.nan = V.nan := by cases v <;> rfl

theorem neg_nan : V.neg V.nan = V.nan := rfl

theorem sq_nan : V.nan.sq = V.nan := rfl

theorem sqrtV_nan : V.sqrtV V.nan = V.nan := rfl

theorem absV_nan : V.nan.absV = V.nan := rfl

theorem nan_le (v : V) : V.le V.nan v = false := by cases v <;> rfl

theorem le_nan (v : V) : V.le v V.nan = false := by cases v <;> rfl

theorem nan_lt (v : V) : V.lt V.nan v = false := by cases v <;> rfl

theorem lt_nan (v : V) : V.lt v V.nan = false := by cases v <;> rfl

theorem maxV_nan (v : V) : V.maxV v V.nan = V.nan := by cases v <;> rfl

theorem nan_maxV (v : V) : V.maxV V.nan v = V.nan := by cases v <;> rfl

theorem minV_nan (v : V) : V.minV v V.nan = V.nan := by cases v <;> rfl

theorem nan_minV (v : V) : V.minV V.nan v = V.nan := by cases v <;> rfl

theorem isNan_nan : V.nan.isNan = true := rfl

end NuReco

namespace NuReco

/-!  NaN propagation through the reconstruction pipeline: once the corrected
mass constraint is NaN, every downstream quantity of that event is NaN. -/

theorem get_k_mc_nan (a b c d : V) : get_k a b c d V.nan = V.nan := by
  simp [get_k, sq_nan, nan_div, nan_add]

theorem get_h_mc_nan (a b c d : V) : get_h a b c d V.nan = V.nan := by
  simp [get_h, get_k_mc_nan, div_nan, sq_nan]

theorem vx_constrain_mc_nan (v l : V) : vx_constrain v l V.nan = V.nan := by
  simp [vx_constrain, V.clip, sq_nan, neg_nan, nan_div, maxV_nan, nan_minV, minV_nan]

theorem optimizeLoop_mc_nan {S : Type} (step : S → V → S × V) (l : V) :
    ∀ (n : ℕ) (sv : S × V), (optimizeLoop step l V.nan (n + 1) sv).2 = V.nan := by
  intro n
  induction n with
  | zero =>
      intro sv
      simp [optimizeLoop, vx_constrain_mc_nan]
  | succ k ih =>
      intro sv
      show (optimizeLoop step l V.nan (k + 1)
        ((step sv.1 sv.2).1, vx_constrain (step sv.1 sv.2).2 l V.nan)).2 = V.nan
      exact ih _

theorem optimize1_mc_nan {S : Type} (step : S → V → S × V) (s0 : S) (v l : V) :
    (optimize1 step s0 v l V.nan).2 = V.nan :=
  optimizeLoop_mc_nan step l 99 (s0, v)

theorem calc_vy_mc_nan (vx a b sg : V) : calc_vy vx a b V.nan sg true = V.nan := by
  simp [calc_vy, sq_nan, nan_div, nan_mul, mul_nan, sqrtV_nan, lt_nan, add_nan, nan_add, div_nan]

theorem shift_vy_nan (vx mx my : V) : shift vx V.nan mx my = V.nan := by
  simp [shift, sub_nan, sq_nan, add_nan]

theorem nanCatch_nan_mc_nan (l : V) : nanCatch V.nan l V.nan = V.nan := by
  simp [nanCatch, isNan_nan, sq_nan, neg_nan, nan_div]

theorem complexTail_mc_nan (lz a b mx my : V) :
    complexTail lz a b mx my V.nan V.nan V.nan = (V.nan, V.nan, V.nan) := by
  simp [complexTail, nanCatch_nan_mc_nan, calc_vy_mc_nan, shift_vy_nan, nan_le,
    get_k_mc_nan, nan_mul, nan_div]

theorem neutrino_reco_complex_mc_nan {S : Type} (step1 step2 : S → V → S × V)
    (s1 s2 : S) (lepe a b lz mx my v1 v2 : V) :
    neutrino_reco_complex step1 step2 s1 s2 lepe a b lz mx my v1 v2 V.nan
      = (V.nan, V.nan, V.nan) := by
  unfold neutrino_reco_complex
  rw [optimize1_mc_nan, optimize1_mc_nan]
  exact complexTail_mc_nan lz a b mx my

theorem mcEff_nan_of_heavy_lepton {E px py pz mu : ℝ}
    (h : mu ^ 2 < E ^ 2 - px ^ 2 - py ^ 2 - pz ^ 2) :
    mcEff (V.fin E) (V.fin px) (V.fin py) (V.fin pz) (V.fin mu) = V.nan := by
  have hrad : 0 ≤ E ^ 2 - px ^ 2 - py ^ 2 - pz ^ 2 := le_trans (sq_nonneg mu) h.le
  simp only [mcEff, lepmClamped, fin_sq, fin_sub, fin_sqrtV hrad, isNan_fin,
    Bool.false_eq_true, if_false, Real.sq_sqrt hrad]
  exact fin_sqrtV_neg (by linarith)

theorem neutrino_reco_mcEff_nan {S : Type} (step1 step2 : S → V → S × V) (s1 s2 : S)
    (lepe lepx lepy lepz metx mety v1 v2 mc : V)
    (h : mcEff lepe lepx lepy lepz mc = V.nan) :
    neutrino_reco step1 step2 s1 s2 lepe lepx lepy lepz metx mety v1 v2 mc
      = (V.nan, V.nan, V.nan) := by
  simp only [neutrino_reco, h, get_h_mc_nan, nan_le, Bool.false_eq_true, if_false,
    neutrino_reco_complex_mc_nan]

end NuReco

namespace NuReco

/-!  Evaluation of the projection `vx_constrain` on finite inputs, and the
half-line invariant it enforces inside the optimizer loop. -/

theorem constr_val_fin {a : ℝ} (m : ℝ) (ha : a ≠ 0) :
    V.neg (V.fin m).sq / (V.fin 4 * V.fin a) = V.fin (-(m ^ 2) / (4 * a)) := by
  rw [fin_sq, fin_neg, fin_mul, fin_div _ (mul_ne_zero (by norm_num) ha)]

theorem vx_constrain_fin_pos {a m x : ℝ} (ha : a ≠ 0) (h0 : 0 ≤ a) :
    vx_constrain (V.fin x) (V.fin a) (V.fin m)
      = V.fin (max x (-(m ^ 2) / (4 * a))) := by
  unfold vx_constrain
  rw [constr_val_fin m ha]
  simp [fin_le, h0, V.clip, fin_maxV, V.minV]

theorem vx_constrain_fin_neg {a m x : ℝ} (h0 : a < 0) :
    vx_constrain (V.fin x) (V.fin a) (V.fin m)
      = V.fin (min x (-(m ^ 2) / (4 * a))) := by
  unfold vx_constrain
  rw [constr_val_fin m (ne_of_lt h0)]
  simp [fin_le, not_le.2 h0, V.clip, V.maxV, fin_minV]

theorem vx_constrain_fin_bound {a m : ℝ} (ha : a ≠ 0) (v : V) {y : ℝ}
    (h : vx_constrain v (V.fin a) (V.fin m) = V.fin y) :
    (0 ≤ a → -(m ^ 2) / (4 * a) ≤ y) ∧ (a < 0 → y ≤ -(m ^ 2) / (4 * a)) := by
  rcases le_or_lt 0 a with h0 | h0
  · refine ⟨fun _ => ?_, fun hc => absurd hc (not_lt.2 h0)⟩
    cases v with
    | nan => simp [vx_constrain, V.clip, nan_maxV, nan_minV] at h
    | pinf =>
        rw [vx_constrain, constr_val_fin m ha] at h
        simp [fin_le, h0, V.clip, V.maxV, V.minV] at h
    | ninf =>
        rw [vx_constrain, constr_val_fin m ha] at h
        simp only [fin_le, decide_eq_true_eq, h0, if_true, V.clip] at h
        simp [V.maxV, V.minV] at h
        exact h.le
    | fin x =>
        rw [vx_constrain_fin_pos ha h0] at h
        cases fin_injective h
        exact le_max_right x _
  · refine ⟨fun hc => absurd h0 (not_lt.2 hc), fun _ => ?_⟩
    cases v with
    | nan => simp [vx_constrain, V.clip, nan_maxV, nan_minV] at h
    | pinf =>
        rw [vx_constrain, constr_val_fin m (ne_of_lt h0)] at h
        simp only [fin_le, decide_eq_true_eq, not_le.2 h0, if_false, V.clip] at h
        simp [V.maxV, V.minV] at h
        exact h.ge
    | ninf =>
        rw [vx_constrain, constr_val_fin m (ne_of_lt h0)] at h
        simp [fin_le, not_le.2 h0, V.clip, V.maxV, V.minV] at h
    | fin x =>
        rw [vx_constrain_fin_neg h0] at h
        cases fin_injective h
        exact min_le_right x _

theorem optimizeLoop_fin_bound {a m : ℝ} (ha : a ≠ 0) {S : Type} (step : S → V → S × V) :
    ∀ (n : ℕ) (sv : S × V) (y : ℝ),
      (optimizeLoop step (V.fin a) (V.fin m) (n + 1) sv).2 = V.fin y →
      (0 ≤ a → -(m ^ 2) / (4 * a) ≤ y) ∧ (a < 0 → y ≤ -(m ^ 2) / (4 * a)) := by
  intro n
  induction n with
  | zero =>
      intro sv y h
      exact vx_constrain_fin_bound ha _ h
  | succ k ih =>
      intro sv y h
      exact ih _ y h

end NuReco

namespace NuReco

/-- C9: for every lepton four-momentum, the clamped invariant mass used by
the event combiner is a finite value `≥ 0`; a negative radicand (tachyonic
numerical noise) yields exactly 0, never a failure. -/
theorem C9_lepm_clamped_nonneg (E px py pz : ℝ) :
    ∃ r : ℝ, lepmClamped (V.fin E) (V.fin px) (V.fin py) (V.fin pz) = V.fin r ∧ 0 ≤ r ∧
      (E ^ 2 - px ^ 2 - py ^ 2 - pz ^ 2 < 0 → r = 0) := by
  by_cases hrad : E ^ 2 - px ^ 2 - py ^ 2 - pz ^ 2 < 0
  · refine ⟨0, ?_, le_refl 0, fun _ => rfl⟩
    simp only [lepmClamped, fin_sq, fin_sub, fin_sqrtV_neg hrad, isNan_nan, if_true]
  · push_neg at hrad
    refine ⟨Real.sqrt (E ^ 2 - px ^ 2 - py ^ 2 - pz ^ 2), ?_, Real.sqrt_nonneg _,
      fun hc => absurd hc (not_lt.2 hrad)⟩
    simp only [lepmClamped, fin_sq, fin_sub, fin_sqrtV hrad, isNan_fin,
      Bool.false_eq_true, if_false]

/-- C9 witness: a tachyonic lepton `(E,px,py,pz) = (1,2,0,0)` gives a clamped
invariant mass of exactly 0. -/
theorem C9_lepm_clamped_nonneg_witness :
    ∃ r : ℝ, lepmClamped (V.fin 1) (V.fin 2) (V.fin 0) (V.fin 0) = V.fin r ∧ 0 ≤ r ∧
      ((1 : ℝ) ^ 2 - 2 ^ 2 - 0 ^ 2 - 0 ^ 2 < 0 → r = 0) :=
  C9_lepm_clamped_nonneg 1 2 0 0

/-!  C7: the NaN catch after the optimizations. -/

theorem vx_constrain_pinf_example :
    vx_constrain V.pinf (V.fin 1) (V.fin 2) = V.pinf := by
  rw [vx_constrain, constr_val_fin 2 (one_ne_zero)]
  simp [fin_le, V.clip, V.maxV, V.minV]

theorem optimizeLoop_const_pinf :
    ∀ (n : ℕ) (s : Unit) (v : V),
      (optimizeLoop (fun (s : Unit) (_ : V) => (s, V.pinf)) (V.fin 1) (V.fin 2)
        (n + 1) (s, v)).2 = V.pinf := by
  intro n
  induction n with
  | zero =>
      intro s v
      show vx_constrain V.pinf (V.fin 1) (V.fin 2) = V.pinf
      exact vx_constrain_pinf_example
  | succ k ih =>
      intro s v
      show (optimizeLoop (fun (s : Unit) (_ : V) => (s, V.pinf)) (V.fin 1) (V.fin 2)
        (k + 1) (s, vx_constrain V.pinf (V.fin 1) (V.fin 2))).2 = V.pinf
      rw [vx_constrain_pinf_example]
      exact ih s V.pinf

/-- C7 counterexample: an optimization that ends at `+inf` (possible: the
projection keeps `+inf` when `lepx ≥ 0`) is NOT replaced by the boundary
value `-(mc**2)/(4*lepx)`: the catch tests `is_nan` only, and `+inf` is not
NaN, so it passes through to the y-reconstruction unchanged. -/
theorem C7_inf_iterate_not_replaced :
    (optimize1 (fun (s : Unit) (_ : V) => (s, V.pinf)) () (V.fin 0) (V.fin 1) (V.fin 2)).2
        = V.pinf ∧
    V.pinf.isNan = false ∧
    nanCatch V.pinf (V.fin 1) (V.fin 2) = V.pinf ∧
    nanCatch V.pinf (V.fin 1) (V.fin 2) ≠ V.neg (V.fin 2).sq / (V.fin 4 * V.fin 1) := by
  refine ⟨optimizeLoop_const_pinf 99 () (V.fin 0), rfl, rfl, ?_⟩
  rw [constr_val_fin 2 (one_ne_zero)]
  intro h
  exact V.noConfusion h

/-- C7 (amended): in the numeric solver, a NaN iterate is replaced by the
constraint-boundary value `-(mc**2)/(4*lepx)` before `vy` is computed, and
every non-NaN iterate — including `±inf` — is passed through unchanged. -/
theorem C7_nan_iterate_replaced (vx lepx mc : V) :
    (vx.isNan = true → nanCatch vx lepx mc = V.neg mc.sq / (V.fin 4 * lepx)) ∧
    (vx.isNan = false → nanCatch vx lepx mc = vx) := by
  constructor <;> intro h <;> simp [nanCatch, h]

/-- C7 witness: at `mc = 2`, `lepx = 1` a NaN iterate becomes the boundary
value and a `+inf` iterate is left as is. -/
theorem C7_nan_iterate_replaced_witness :
    nanCatch V.nan (V.fin 1) (V.fin 2) = V.neg (V.fin 2).sq / (V.fin 4 * V.fin 1) ∧
    nanCatch V.pinf (V.fin 1) (V.fin 2) = V.pinf :=
  ⟨(C7_nan_iterate_replaced V.nan (V.fin 1) (V.fin 2)).1 rfl,
   (C7_nan_iterate_replaced V.pinf (V.fin 1) (V.fin 2)).2 rfl⟩

/-- C5: the projection step of the numeric solver.  For `lepx ≥ 0` (nonzero)
it maps every real trial `vx` into `[-mc^2/(4 lepx), ∞)` and fixes the points
already there; for `lepx < 0` symmetrically into `(-∞, -mc^2/(4 lepx)]`; and
after every iteration of the optimizer loop a finite iterate lies in the
half-line, whatever the optimizer update did. -/
theorem C5_projection_invariant (a m x : ℝ) (ha : a ≠ 0) :
    (0 ≤ a → ∃ y : ℝ, vx_constrain (V.fin x) (V.fin a) (V.fin m) = V.fin y ∧
        -(m ^ 2) / (4 * a) ≤ y ∧ (-(m ^ 2) / (4 * a) ≤ x → y = x)) ∧
    (a < 0 → ∃ y : ℝ, vx_constrain (V.fin x) (V.fin a) (V.fin m) = V.fin y ∧
        y ≤ -(m ^ 2) / (4 * a) ∧ (x ≤ -(m ^ 2) / (4 * a) → y = x)) ∧
    (∀ (S : Type) (step : S → V → S × V) (n : ℕ) (sv : S × V) (y : ℝ),
        (optimizeLoop step (V.fin a) (V.fin m) (n + 1) sv).2 = V.fin y →
        (0 ≤ a → -(m ^ 2) / (4 * a) ≤ y) ∧ (a < 0 → y ≤ -(m ^ 2) / (4 * a))) := by
  refine ⟨fun h0 => ?_, fun h0 => ?_, fun S step n sv y h => optimizeLoop_fin_bound ha step n sv y h⟩
  · exact ⟨max x (-(m ^ 2) / (4 * a)), vx_constrain_fin_pos ha h0,
      le_max_right _ _, fun hx => max_eq_left hx⟩
  · exact ⟨min x (-(m ^ 2) / (4 * a)), vx_constrain_fin_neg h0,
      min_le_right _ _, fun hx => min_eq_left hx⟩

/-- C5 witness: at `lepx = 1`, `mc = 2`, the trial `vx = 5` (inside the
half-line `[-1, ∞)`) is left unchanged by the projection. -/
theorem C5_projection_invariant_witness :
    ∃ y : ℝ, vx_constrain (V.fin 5) (V.fin 1) (V.fin 2) = V.fin y ∧
      -((2 : ℝ) ^ 2) / (4 * 1) ≤ y ∧ (-((2 : ℝ) ^ 2) / (4 * 1) ≤ 5 → y = 5) :=
  (C5_projection_invariant 1 2 5 one_ne_zero).1 zero_le_one

end NuReco

namespace NuReco

/-- C1: the combiner is a strict per-event branch partition.  Whenever the
discriminant `h` (computed with the lepton-mass-corrected constraint) is a
real number `hv`, the output triple is the analytic solver's exactly when
`hv ≤ 1` and the numeric solver's exactly when `1 < hv`; the two conditions
neither overlap nor leave a gap, and in a batch every event's output is its
own event's evaluation. -/
theorem C1_branch_partition {S : Type} (zeroS : S) (step1 step2 : S → V → S × V)
    (s1 s2 : S) (st : LayerState S) (es : List Event) (i : ℕ)
    (lepe lepx lepy lepz metx mety vx1v vx2v mc : V) (hv : ℝ)
    (hfin : get_h lepx lepy metx mety (mcEff lepe lepx lepy lepz mc) = V.fin hv) :
    (hv ≤ 1 → neutrino_reco step1 step2 s1 s2 lepe lepx lepy lepz metx mety vx1v vx2v mc
        = neutrino_reco_real lepe lepx lepy lepz metx mety (mcEff lepe lepx lepy lepz mc)) ∧
    (1 < hv → neutrino_reco step1 step2 s1 s2 lepe lepx lepy lepz metx mety vx1v vx2v mc
        = neutrino_reco_complex step1 step2 s1 s2 lepe lepx lepy lepz metx mety vx1v vx2v
            (mcEff lepe lepx lepy lepz mc)) ∧
    ¬(hv ≤ 1 ∧ 1 < hv) ∧ (hv ≤ 1 ∨ 1 < hv) ∧
    (batchRun zeroS step1 step2 mc st es)[i]?
      = es[i]?.map (layerCall zeroS step1 step2 mc st) := by
  refine ⟨fun h => ?_, fun h => ?_, fun hc => absurd hc.1 (not_le.2 hc.2), le_or_lt hv 1,
    List.getElem?_map (layerCall zeroS step1 step2 mc st) es i⟩
  · simp only [neutrino_reco, hfin, fin_le, decide_eq_true_eq, h, if_true]
  · simp only [neutrino_reco, hfin, fin_le, decide_eq_true_eq, not_le.2 h, if_false]

/-- C1 witness: the event `lep = (5,3,4,0)`, `MET = (3,4)`, `mc = 5` has
`h = 4/9 ≤ 1`, so the combiner returns the analytic triple. -/
theorem C1_branch_partition_witness :
    ((4 : ℝ) / 9 ≤ 1 →
      neutrino_reco (fun (s : Unit) (v : V) => (s, v)) (fun (s : Unit) (v : V) => (s, v)) () ()
          (V.fin 5) (V.fin 3) (V.fin 4) (V.fin 0) (V.fin 3) (V.fin 4) (V.fin 3) (V.fin 3) (V.fin 5)
        = neutrino_reco_real (V.fin 5) (V.fin 3) (V.fin 4) (V.fin 0) (V.fin 3) (V.fin 4)
            (mcEff (V.fin 5) (V.fin 3) (V.fin 4) (V.fin 0) (V.fin 5))) ∧
    ((1 : ℝ) < 4 / 9 →
      neutrino_reco (fun (s : Unit) (v : V) => (s, v)) (fun (s : Unit) (v : V) => (s, v)) () ()
          (V.fin 5) (V.fin 3) (V.fin 4) (V.fin 0) (V.fin 3) (V.fin 4) (V.fin 3) (V.fin 3) (V.fin 5)
        = neutrino_reco_complex (fun (s : Unit) (v : V) => (s, v)) (fun (s : Unit) (v : V) => (s, v))
            () () (V.fin 5) (V.fin 3) (V.fin 4) (V.fin 0) (V.fin 3) (V.fin 4) (V.fin 3) (V.fin 3)
            (mcEff (V.fin 5) (V.fin 3) (V.fin 4) (V.fin 0) (V.fin 5))) ∧
    ¬((4 : ℝ) / 9 ≤ 1 ∧ (1 : ℝ) < 4 / 9) ∧ ((4 : ℝ) / 9 ≤ 1 ∨ (1 : ℝ) < 4 / 9) ∧
    (batchRun () (fun (s : Unit) (v : V) => (s, v)) (fun (s : Unit) (v : V) => (s, v)) (V.fin 5)
        ⟨V.fin 0, V.fin 0, (), ()⟩ ([] : List Event))[0]?
      = (([] : List Event))[0]?.map
          (layerCall () (fun (s : Unit) (v : V) => (s, v)) (fun (s : Unit) (v : V) => (s, v))
            (V.fin 5) ⟨V.fin 0, V.fin 0, (), ()⟩) :=
  C1_branch_partition () (fun s v => (s, v)) (fun s v => (s, v)) () ()
    ⟨V.fin 0, V.fin 0, (), ()⟩ [] 0
    (V.fin 5) (V.fin 3) (V.fin 4) (V.fin 0) (V.fin 3) (V.fin 4) (V.fin 3) (V.fin 3) (V.fin 5)
    (4 / 9)
    (by
      have h25 : Real.sqrt 25 = 5 := by
        rw [show (25 : ℝ) = 5 ^ 2 by norm_num]
        exact Real.sqrt_sq (by norm_num)
      norm_num [get_h, get_k, get_pt, mcEff, lepmClamped, fin_sq, fin_sub, fin_add, fin_mul,
        fin_div, fin_sqrtV, isNan_fin, Real.sqrt_zero, h25])

end NuReco

namespace NuReco

/-- C10: deterministic tie-breaking towards the positive sign.  When the two
analytic roots have exactly equal (real) absolute values the solver returns
the `+` root, and when the two numeric sign branches have exactly equal
(real) `met_shift` residuals the solver keeps the `sign = +1` branch's
`(vx, vy)`. -/
theorem C10_tie_breaks_positive
    (lepe lepx lepy lepz vx vy mc : V) (r : ℝ)
    (hp : (vzPlus lepe lepx lepy lepz vx vy mc).absV = V.fin r)
    (hn : (vzMinus lepe lepx lepy lepz vx vy mc).absV = V.fin r)
    (lz lx ly mx my mcc vx1in vx2in : V) (d : ℝ)
    (hd1 : shift (nanCatch vx1in lx mcc)
        (calc_vy (nanCatch vx1in lx mcc) lx ly mcc (V.fin 1) true) mx my = V.fin d)
    (hd2 : shift (nanCatch vx2in lx mcc)
        (calc_vy (nanCatch vx2in lx mcc) lx ly mcc (V.fin (-1)) true) mx my = V.fin d) :
    (neutrino_reco_real lepe lepx lepy lepz vx vy mc).2.2
        = vzPlus lepe lepx lepy lepz vx vy mc ∧
    (complexTail lz lx ly mx my mcc vx1in vx2in).1 = nanCatch vx1in lx mcc ∧
    (complexTail lz lx ly mx my mcc vx1in vx2in).2.1
        = calc_vy (nanCatch vx1in lx mcc) lx ly mcc (V.fin 1) true := by
  refine ⟨?_, ?_, ?_⟩
  · simp only [neutrino_reco_real, hp, hn, fin_le, decide_eq_true_eq, le_refl, if_true]
  · simp only [complexTail, hd1, hd2, fin_le, decide_eq_true_eq, le_refl, if_true]
  · simp only [complexTail, hd1, hd2, fin_le, decide_eq_true_eq, le_refl, if_true]

/-- C10 witness: the event `lep = (5,3,4,0)`, trial `(0,0)`, `mc = 5` makes
the two analytic roots `±5/2` (an exact tie, `+` root kept), and the numeric
inputs `lepx = 1, lepy = 0, mc = 2`, both iterates 0, `MET = (0,0)` make
both branch residuals 4 (an exact tie, branch `+1` kept). -/
theorem C10_tie_breaks_positive_witness :
    (neutrino_reco_real (V.fin 5) (V.fin 3) (V.fin 4) (V.fin 0) (V.fin 0) (V.fin 0)
        (V.fin 5)).2.2
      = vzPlus (V.fin 5) (V.fin 3) (V.fin 4) (V.fin 0) (V.fin 0) (V.fin 0) (V.fin 5) ∧
    (complexTail (V.fin 3) (V.fin 1) (V.fin 0) (V.fin 0) (V.fin 0) (V.fin 2)
        (V.fin 0) (V.fin 0)).1 = nanCatch (V.fin 0) (V.fin 1) (V.fin 2) ∧
    (complexTail (V.fin 3) (V.fin 1) (V.fin 0) (V.fin 0) (V.fin 0) (V.fin 2)
        (V.fin 0) (V.fin 0)).2.1
      = calc_vy (nanCatch (V.fin 0) (V.fin 1) (V.fin 2)) (V.fin 1) (V.fin 0) (V.fin 2)
          (V.fin 1) true :=
  C10_tie_breaks_positive (V.fin 5) (V.fin 3) (V.fin 4) (V.fin 0) (V.fin 0) (V.fin 0)
    (V.fin 5) (5 / 2)
    (by
      have h25 : Real.sqrt 25 = 5 := by
        rw [show (25 : ℝ) = 5 ^ 2 by norm_num]
        exact Real.sqrt_sq (by norm_num)
      norm_num [vzPlus, get_h, get_k, get_pt, fin_sq, fin_sub, fin_add, fin_mul,
        fin_div, fin_sqrtV, fin_absV, Real.sqrt_zero, Real.sqrt_one, h25])
    (by
      have h25 : Real.sqrt 25 = 5 := by
        rw [show (25 : ℝ) = 5 ^ 2 by norm_num]
        exact Real.sqrt_sq (by norm_num)
      norm_num [vzMinus, get_h, get_k, get_pt, fin_sq, fin_sub, fin_add, fin_mul,
        fin_div, fin_sqrtV, fin_absV, Real.sqrt_zero, Real.sqrt_one, h25])
    (V.fin 3) (V.fin 1) (V.fin 0) (V.fin 0) (V.fin 0) (V.fin 2) (V.fin 0) (V.fin 0) 4
    (by
      have h4 : Real.sqrt 4 = 2 := by
        rw [show (4 : ℝ) = 2 ^ 2 by norm_num]
        exact Real.sqrt_sq (by norm_num)
      norm_num [shift, nanCatch, calc_vy, isNan_fin, fin_sq, fin_sub, fin_add, fin_mul,
        fin_div, fin_sqrtV, fin_lt, h4])
    (by
      have h4 : Real.sqrt 4 = 2 := by
        rw [show (4 : ℝ) = 2 ^ 2 by norm_num]
        exact Real.sqrt_sq (by norm_num)
      norm_num [shift, nanCatch, calc_vy, isNan_fin, fin_sq, fin_sub, fin_add, fin_mul,
        fin_div, fin_sqrtV, fin_lt, h4])

/-- C4: in the numeric solver's tail the returned `(vx, vy)` pair is, as a
pair, the sign branch whose `met_shift` residual is less than or equal to
the other branch's, and the returned `vz` is `k * lepz / leppt^2` evaluated
at exactly that finally-chosen pair. -/
theorem C4_branch_selection (lepz lepx lepy metx mety mc vx1in vx2in : V) (d1 d2 : ℝ)
    (hd1 : shift (nanCatch vx1in lepx mc)
        (calc_vy (nanCatch vx1in lepx mc) lepx lepy mc (V.fin 1) true) metx mety = V.fin d1)
    (hd2 : shift (nanCatch vx2in lepx mc)
        (calc_vy (nanCatch vx2in lepx mc) lepx lepy mc (V.fin (-1)) true) metx mety = V.fin d2) :
    ∃ vx vy : V,
      complexTail lepz lepx lepy metx mety mc vx1in vx2in
        = (vx, vy, get_k lepx lepy vx vy mc * lepz / (get_pt lepx lepy).sq) ∧
      (((vx, vy) = (nanCatch vx1in lepx mc,
          calc_vy (nanCatch vx1in lepx mc) lepx lepy mc (V.fin 1) true) ∧ d1 ≤ d2) ∨
       ((vx, vy) = (nanCatch vx2in lepx mc,
          calc_vy (nanCatch vx2in lepx mc) lepx lepy mc (V.fin (-1)) true) ∧ d2 ≤ d1)) := by
  by_cases hc : d1 ≤ d2
  · refine ⟨nanCatch vx1in lepx mc,
      calc_vy (nanCatch vx1in lepx mc) lepx lepy mc (V.fin 1) true, ?_, Or.inl ⟨rfl, hc⟩⟩
    simp only [complexTail, hd1, hd2, fin_le, decide_eq_true_eq, hc, if_true]
  · refine ⟨nanCatch vx2in lepx mc,
      calc_vy (nanCatch vx2in lepx mc) lepx lepy mc (V.fin (-1)) true, ?_,
      Or.inr ⟨rfl, le_of_not_le hc⟩⟩
    simp only [complexTail, hd1, hd2, fin_le, decide_eq_true_eq, hc, if_false]

/-- C4 witness: with `lepx = 1, lepy = 0, mc = 2`, both iterates 0 and
`MET = (0, 2)`, branch `+1` has residual 0, branch `-1` has residual 16, and
the tail keeps branch `+1` with `vz` built from its pair. -/
theorem C4_branch_selection_witness :
    ∃ vx vy : V,
      complexTail (V.fin 3) (V.fin 1) (V.fin 0) (V.fin 0) (V.fin 2) (V.fin 2)
          (V.fin 0) (V.fin 0)
        = (vx, vy, get_k (V.fin 1) (V.fin 0) vx vy (V.fin 2) * V.fin 3
            / (get_pt (V.fin 1) (V.fin 0)).sq) ∧
      (((vx, vy) = (nanCatch (V.fin 0) (V.fin 1) (V.fin 2),
          calc_vy (nanCatch (V.fin 0) (V.fin 1) (V.fin 2)) (V.fin 1) (V.fin 0) (V.fin 2)
            (V.fin 1) true) ∧ (0 : ℝ) ≤ 16) ∨
       ((vx, vy) = (nanCatch (V.fin 0) (V.fin 1) (V.fin 2),
          calc_vy (nanCatch (V.fin 0) (V.fin 1) (V.fin 2)) (V.fin 1) (V.fin 0) (V.fin 2)
            (V.fin (-1)) true) ∧ (16 : ℝ) ≤ 0)) :=
  C4_branch_selection (V.fin 3) (V.fin 1) (V.fin 0) (V.fin 0) (V.fin 2) (V.fin 2)
    (V.fin 0) (V.fin 0) 0 16
    (by
      have h4 : Real.sqrt 4 = 2 := by
        rw [show (4 : ℝ) = 2 ^ 2 by norm_num]
        exact Real.sqrt_sq (by norm_num)
      norm_num [shift, nanCatch, calc_vy, isNan_fin, fin_sq, fin_sub, fin_add, fin_mul,
        fin_div, fin_sqrtV, fin_lt, h4])
    (by
      have h4 : Real.sqrt 4 = 2 := by
        rw [show (4 : ℝ) = 2 ^ 2 by norm_num]
        exact Real.sqrt_sq (by norm_num)
      norm_num [shift, nanCatch, calc_vy, isNan_fin, fin_sq, fin_sub, fin_add, fin_mul,
        fin_div, fin_sqrtV, fin_lt, h4])

end NuReco

namespace NuReco

/-- C6: no optimizer state leaks between calls.  A second call on the state
left behind by a first call with the same event yields the same output; more
generally the output is independent of the incoming persistent state, because
`call` starts by resetting the optimizer variables to zero and re-seeding
both iterate variables with `metx`; and the prepared state is literally
`(metx, metx, 0, 0)`.  The same holds batchwise. -/
theorem C6_no_state_leak {S : Type} (zeroS : S) (step1 step2 : S → V → S × V)
    (mc : V) (st stother : LayerState S) (e : Event) :
    (layerCallFull zeroS step1 step2 mc ((layerCallFull zeroS step1 step2 mc st e).1) e).2
      = (layerCallFull zeroS step1 step2 mc st e).2 ∧
    layerCall zeroS step1 step2 mc stother e = layerCall zeroS step1 step2 mc st e ∧
    preparedState zeroS st e = ⟨e.metx, e.metx, zeroS, zeroS⟩ ∧
    (∀ es : List Event, batchRun zeroS step1 step2 mc stother es
        = batchRun zeroS step1 step2 mc st es) := by
  refine ⟨rfl, rfl, rfl, fun es => ?_⟩
  unfold batchRun
  exact congrArg (fun g => List.map g es) (funext fun e2 => rfl)

/-- The per-event core of C8: a finite event whose lepton invariant mass
exceeds the mass constraint evaluates to the NaN triple. -/
theorem layerCall_heavy_lepton_nan {S : Type} (zeroS : S) (step1 step2 : S → V → S × V)
    (st : LayerState S) (E px py pz mx my mu : ℝ)
    (hbad : mu ^ 2 < E ^ 2 - px ^ 2 - py ^ 2 - pz ^ 2) :
    layerCall zeroS step1 step2 (V.fin mu) st
        ⟨V.fin E, V.fin px, V.fin py, V.fin pz, V.fin mx, V.fin my⟩
      = (V.nan, V.nan, V.nan) :=
  neutrino_reco_mcEff_nan step1 step2 _ _ _ _ _ _ _ _ _ _ _
    (mcEff_nan_of_heavy_lepton hbad)

/-- C8: a per-event domain error (configured mass constraint below the
lepton's own invariant mass) never aborts the batch: the evaluation still
returns one triple per event, the offending event's triple is NaN in all
three components, and every other event's output is unchanged whatever the
offending event's values are replaced by. -/
theorem C8_bad_event_is_local {S : Type} (zeroS : S) (step1 step2 : S → V → S × V)
    (st : LayerState S) (es : List Event) (i : ℕ) (e : Event)
    (E px py pz mx my mu : ℝ)
    (hi : es[i]? = some e)
    (he : e = ⟨V.fin E, V.fin px, V.fin py, V.fin pz, V.fin mx, V.fin my⟩)
    (hbad : mu ^ 2 < E ^ 2 - px ^ 2 - py ^ 2 - pz ^ 2) :
    (batchRun zeroS step1 step2 (V.fin mu) st es).length = es.length ∧
    (batchRun zeroS step1 step2 (V.fin mu) st es)[i]? = some (V.nan, V.nan, V.nan) ∧
    (∀ (j : ℕ) (e2 : Event), j ≠ i →
      (batchRun zeroS step1 step2 (V.fin mu) st (es.set i e2))[j]?
        = (batchRun zeroS step1 step2 (V.fin mu) st es)[j]?) := by
  refine ⟨List.length_map es _, ?_, fun j e2 hj => ?_⟩
  · rw [batchRun, List.getElem?_map _ es i, hi, Option.map_some']
    rw [he, layerCall_heavy_lepton_nan zeroS step1 step2 st E px py pz mx my mu hbad]
  · rw [batchRun, batchRun, List.map_set, List.getElem?_set_ne (Ne.symm hj)]

/-- C8 witness: a two-event batch whose first event has `lepm = 5` against
`mc = 2` produces a NaN triple in slot 0, keeps the batch length, and slot 1
is unaffected by what sits in slot 0. -/
theorem C8_bad_event_is_local_witness :
    (batchRun () (fun (s : Unit) (v : V) => (s, v)) (fun (s : Unit) (v : V) => (s, v))
        (V.fin 2) ⟨V.fin 0, V.fin 0, (), ()⟩
        [⟨V.fin 5, V.fin 0, V.fin 0, V.fin 0, V.fin 0, V.fin 0⟩,
         ⟨V.fin 35, V.fin (-34), V.fin (-1), V.fin (-6), V.fin (-63), V.fin (-72)⟩]).length
      = ([⟨V.fin 5, V.fin 0, V.fin 0, V.fin 0, V.fin 0, V.fin 0⟩,
          ⟨V.fin 35, V.fin (-34), V.fin (-1), V.fin (-6), V.fin (-63), V.fin (-72)⟩] :
            List Event).length ∧
    (batchRun () (fun (s : Unit) (v : V) => (s, v)) (fun (s : Unit) (v : V) => (s, v))
        (V.fin 2) ⟨V.fin 0, V.fin 0, (), ()⟩
        [⟨V.fin 5, V.fin 0, V.fin 0, V.fin 0, V.fin 0, V.fin 0⟩,
         ⟨V.fin 35, V.fin (-34), V.fin (-1), V.fin (-6), V.fin (-63), V.fin (-72)⟩])[0]?
      = some (V.nan, V.nan, V.nan) ∧
    (∀ (j : ℕ) (e2 : Event), j ≠ 0 →
      (batchRun () (fun (s : Unit) (v : V) => (s, v)) (fun (s : Unit) (v : V) => (s, v))
          (V.fin 2) ⟨V.fin 0, V.fin 0, (), ()⟩
          (([⟨V.fin 5, V.fin 0, V.fin 0, V.fin 0, V.fin 0, V.fin 0⟩,
             ⟨V.fin 35, V.fin (-34), V.fin (-1), V.fin (-6), V.fin (-63), V.fin (-72)⟩] :
               List Event).set 0 e2))[j]?
        = (batchRun () (fun (s : Unit) (v : V) => (s, v)) (fun (s : Unit) (v : V) => (s, v))
            (V.fin 2) ⟨V.fin 0, V.fin 0, (), ()⟩
            [⟨V.fin 5, V.fin 0, V.fin 0, V.fin 0, V.fin 0, V.fin 0⟩,
             ⟨V.fin 35, V.fin (-34), V.fin (-1), V.fin (-6), V.fin (-63), V.fin (-72)⟩])[j]?) :=
  C8_bad_event_is_local () (fun s v => (s, v)) (fun s v => (s, v))
    ⟨V.fin 0, V.fin 0, (), ()⟩
    [⟨V.fin 5, V.fin 0, V.fin 0, V.fin 0, V.fin 0, V.fin 0⟩,
     ⟨V.fin 35, V.fin (-34), V.fin (-1), V.fin (-6), V.fin (-63), V.fin (-72)⟩]
    0 ⟨V.fin 5, V.fin 0, V.fin 0, V.fin 0, V.fin 0, V.fin 0⟩
    5 0 0 0 0 0 2 rfl rfl (by norm_num)

end NuReco

namespace NuReco

/-!  Finite-input evaluation of the kinematics library. -/

theorem fin_div_two (x : ℝ) : V.fin x / V.fin 2 = V.fin (x / 2) :=
  fin_div x two_ne_zero

theorem get_k_fin (a b c d m : ℝ) :
    get_k (V.fin a) (V.fin b) (V.fin c) (V.fin d) (V.fin m)
      = V.fin (m ^ 2 / 2 + a * c + b * d) := by
  simp only [get_k, fin_sq, fin_div_two, fin_mul, fin_add]

theorem get_pt_fin (p q : ℝ) :
    get_pt (V.fin p) (V.fin q) = V.fin (Real.sqrt (p ^ 2 + q ^ 2)) := by
  simp only [get_pt, fin_sq, fin_add, fin_sqrtV (by positivity : (0 : ℝ) ≤ p ^ 2 + q ^ 2)]

theorem get_h_fin (a b c d m : ℝ) (hk : m ^ 2 / 2 + a * c + b * d ≠ 0) :
    get_h (V.fin a) (V.fin b) (V.fin c) (V.fin d) (V.fin m)
      = V.fin ((a ^ 2 + b ^ 2) * (c ^ 2 + d ^ 2) / (m ^ 2 / 2 + a * c + b * d) ^ 2) := by
  simp only [get_h, get_k_fin, get_pt_fin, fin_mul, fin_div _ hk, fin_sq]
  rw [div_pow, mul_pow, Real.sq_sqrt (by positivity : (0 : ℝ) ≤ a ^ 2 + b ^ 2),
    Real.sq_sqrt (by positivity : (0 : ℝ) ≤ c ^ 2 + d ^ 2)]

/-- C3: for `lepx ≠ 0` and a non-negative radicand, the value `vy` returned
by `calc_vy` (either sign, no clamping) satisfies the MET-constraint curve
equation exactly, and wherever `k ≠ 0` the discriminant `h` at `(vx, vy)`
is exactly 1. -/
theorem C3_solve_vy_on_curve (x a b m sg : ℝ) (ha : a ≠ 0) (hsg : sg = 1 ∨ sg = -1)
    (hrad : 0 ≤ m ^ 2 / 2 * (a ^ 2 + b ^ 2) * (2 * a * x + m ^ 2 / 2)) :
    ∃ y : ℝ,
      calc_vy (V.fin x) (V.fin a) (V.fin b) (V.fin m) (V.fin sg) false = V.fin y ∧
      (m ^ 2 / 2 + a * x + b * y) ^ 2 = (a ^ 2 + b ^ 2) * (x ^ 2 + y ^ 2) ∧
      (m ^ 2 / 2 + a * x + b * y ≠ 0 →
        get_h (V.fin a) (V.fin b) (V.fin x) (V.fin y) (V.fin m) = V.fin 1) := by
  have ha2 : a ^ 2 ≠ 0 := pow_ne_zero 2 ha
  have hdiva : ∀ u : ℝ, V.fin u / V.fin (a ^ 2) = V.fin (u / a ^ 2) := fun u => fin_div u ha2
  have hs2 : Real.sqrt (m ^ 2 / 2 * (a ^ 2 + b ^ 2) * (2 * a * x + m ^ 2 / 2)) ^ 2
      = m ^ 2 / 2 * (a ^ 2 + b ^ 2) * (2 * a * x + m ^ 2 / 2) := Real.sq_sqrt hrad
  have hkey : (m ^ 2 / 2 + a * x + b * ((a * b * x + b * m ^ 2 / 2
        + sg * Real.sqrt (m ^ 2 / 2 * (a ^ 2 + b ^ 2) * (2 * a * x + m ^ 2 / 2))) / a ^ 2)) ^ 2
      = (a ^ 2 + b ^ 2) * (x ^ 2 + ((a * b * x + b * m ^ 2 / 2
        + sg * Real.sqrt (m ^ 2 / 2 * (a ^ 2 + b ^ 2) * (2 * a * x + m ^ 2 / 2))) / a ^ 2) ^ 2) := by
    generalize hgen : Real.sqrt (m ^ 2 / 2 * (a ^ 2 + b ^ 2) * (2 * a * x + m ^ 2 / 2)) = s
    rw [hgen] at hs2
    rcases hsg with h1 | h1 <;> subst h1 <;> field_simp <;>
      linear_combination (-64 * a ^ 6) * hs2
  refine ⟨(a * b * x + b * m ^ 2 / 2
      + sg * Real.sqrt (m ^ 2 / 2 * (a ^ 2 + b ^ 2) * (2 * a * x + m ^ 2 / 2))) / a ^ 2,
    ?_, hkey, fun hknz => ?_⟩
  · simp only [calc_vy, fin_sq, fin_div_two, fin_add, fin_mul, fin_sqrtV hrad, hdiva,
      Bool.false_eq_true, if_false]
  · rw [get_h_fin _ _ _ _ _ hknz]
    congr 1
    rw [div_eq_one_iff_eq (pow_ne_zero 2 hknz)]
    exact hkey.symm

end NuReco

namespace NuReco

/-- C3 witness: at `vx = 0, lepx = 1, lepy = 0, mc = 2`, sign `+1`, the
radicand is 4 and the returned `vy` satisfies the curve equation with `h = 1`. -/
theorem C3_solve_vy_on_curve_witness :
    ∃ y : ℝ,
      calc_vy (V.fin 0) (V.fin 1) (V.fin 0) (V.fin 2) (V.fin 1) false = V.fin y ∧
      ((2 : ℝ) ^ 2 / 2 + 1 * 0 + 0 * y) ^ 2 = ((1 : ℝ) ^ 2 + 0 ^ 2) * (0 ^ 2 + y ^ 2) ∧
      ((2 : ℝ) ^ 2 / 2 + 1 * 0 + 0 * y ≠ 0 →
        get_h (V.fin 1) (V.fin 0) (V.fin 0) (V.fin y) (V.fin 2) = V.fin 1) :=
  C3_solve_vy_on_curve 0 1 0 2 1 one_ne_zero (Or.inl rfl) (by norm_num)

/-- C2: for an event with `0 ≤ h ≤ 1` (stated as `(a²+b²)(X²+Y²) ≤ k²` with
`k ≠ 0`), the analytic solver returns the trial `(vx, vy)` (the MET)
unchanged, and `vz` is one of the two roots
`(k/leppt²)·(lepz ± lepe·sqrt(1−h))`, namely one of smallest absolute value. -/
theorem C2_analytic_solver (E a b z X Y m : ℝ)
    (hpt : a ^ 2 + b ^ 2 ≠ 0)
    (hk : m ^ 2 / 2 + a * X + b * Y ≠ 0)
    (hh : (a ^ 2 + b ^ 2) * (X ^ 2 + Y ^ 2) ≤ (m ^ 2 / 2 + a * X + b * Y) ^ 2) :
    ∃ vz : ℝ,
      neutrino_reco_real (V.fin E) (V.fin a) (V.fin b) (V.fin z) (V.fin X) (V.fin Y) (V.fin m)
        = (V.fin X, V.fin Y, V.fin vz) ∧
      (vz = (m ^ 2 / 2 + a * X + b * Y) / (a ^ 2 + b ^ 2) * (z + E * Real.sqrt (1 -
          (a ^ 2 + b ^ 2) * (X ^ 2 + Y ^ 2) / (m ^ 2 / 2 + a * X + b * Y) ^ 2)) ∨
       vz = (m ^ 2 / 2 + a * X + b * Y) / (a ^ 2 + b ^ 2) * (z - E * Real.sqrt (1 -
          (a ^ 2 + b ^ 2) * (X ^ 2 + Y ^ 2) / (m ^ 2 / 2 + a * X + b * Y) ^ 2))) ∧
      |vz| = min
        |(m ^ 2 / 2 + a * X + b * Y) / (a ^ 2 + b ^ 2) * (z + E * Real.sqrt (1 -
          (a ^ 2 + b ^ 2) * (X ^ 2 + Y ^ 2) / (m ^ 2 / 2 + a * X + b * Y) ^ 2))|
        |(m ^ 2 / 2 + a * X + b * Y) / (a ^ 2 + b ^ 2) * (z - E * Real.sqrt (1 -
          (a ^ 2 + b ^ 2) * (X ^ 2 + Y ^ 2) / (m ^ 2 / 2 + a * X + b * Y) ^ 2))| := by
  have hA : (0 : ℝ) ≤ a ^ 2 + b ^ 2 := by positivity
  have hk2 : (0 : ℝ) < (m ^ 2 / 2 + a * X + b * Y) ^ 2 :=
    lt_of_le_of_ne (sq_nonneg _) (Ne.symm (pow_ne_zero 2 hk))
  have h1m : (0 : ℝ) ≤ 1 - (a ^ 2 + b ^ 2) * (X ^ 2 + Y ^ 2) / (m ^ 2 / 2 + a * X + b * Y) ^ 2 := by
    rw [sub_nonneg]
    exact (div_le_one hk2).2 hh
  have hsqA : (V.fin (Real.sqrt (a ^ 2 + b ^ 2))).sq = V.fin (a ^ 2 + b ^ 2) := by
    rw [fin_sq, Real.sq_sqrt hA]
  have hvzp : vzPlus (V.fin E) (V.fin a) (V.fin b) (V.fin z) (V.fin X) (V.fin Y) (V.fin m)
      = V.fin ((m ^ 2 / 2 + a * X + b * Y) / (a ^ 2 + b ^ 2) * (z + E * Real.sqrt (1 -
          (a ^ 2 + b ^ 2) * (X ^ 2 + Y ^ 2) / (m ^ 2 / 2 + a * X + b * Y) ^ 2))) := by
    rw [vzPlus, get_k_fin, get_pt_fin, hsqA, fin_div _ hpt, get_h_fin a b X Y m hk,
      fin_sub, fin_sqrtV h1m, fin_mul, fin_add, fin_mul]
  have hvzn : vzMinus (V.fin E) (V.fin a) (V.fin b) (V.fin z) (V.fin X) (V.fin Y) (V.fin m)
      = V.fin ((m ^ 2 / 2 + a * X + b * Y) / (a ^ 2 + b ^ 2) * (z - E * Real.sqrt (1 -
          (a ^ 2 + b ^ 2) * (X ^ 2 + Y ^ 2) / (m ^ 2 / 2 + a * X + b * Y) ^ 2))) := by
    rw [vzMinus, get_k_fin, get_pt_fin, hsqA, fin_div _ hpt, get_h_fin a b X Y m hk,
      fin_sub, fin_sqrtV h1m, fin_mul, fin_sub, fin_mul]
  by_cases hc : |(m ^ 2 / 2 + a * X + b * Y) / (a ^ 2 + b ^ 2) * (z + E * Real.sqrt (1 -
        (a ^ 2 + b ^ 2) * (X ^ 2 + Y ^ 2) / (m ^ 2 / 2 + a * X + b * Y) ^ 2))|
      ≤ |(m ^ 2 / 2 + a * X + b * Y) / (a ^ 2 + b ^ 2) * (z - E * Real.sqrt (1 -
        (a ^ 2 + b ^ 2) * (X ^ 2 + Y ^ 2) / (m ^ 2 / 2 + a * X + b * Y) ^ 2))|
  · refine ⟨_, ?_, Or.inl rfl, (min_eq_left hc).symm⟩
    simp only [neutrino_reco_real, hvzp, hvzn, fin_absV, fin_le, decide_eq_true_eq, hc, if_true]
  · refine ⟨_, ?_, Or.inr rfl, (min_eq_right (le_of_not_le hc)).symm⟩
    simp only [neutrino_reco_real, hvzp, hvzn, fin_absV, fin_le, decide_eq_true_eq, hc, if_false]

/-- C2 witness: the event `lep = (5,3,4,0)`, trial `(0,0)`, `mc = 5` has
`h = 0 ≤ 1`; the solver passes `(0,0)` through and picks a smallest-absolute
root. -/
theorem C2_analytic_solver_witness :
    ∃ vz : ℝ,
      neutrino_reco_real (V.fin 5) (V.fin 3) (V.fin 4) (V.fin 0) (V.fin 0) (V.fin 0) (V.fin 5)
        = (V.fin 0, V.fin 0, V.fin vz) ∧
      (vz = ((5 : ℝ) ^ 2 / 2 + 3 * 0 + 4 * 0) / (3 ^ 2 + 4 ^ 2) * (0 + 5 * Real.sqrt (1 -
          (3 ^ 2 + 4 ^ 2) * (0 ^ 2 + 0 ^ 2) / (5 ^ 2 / 2 + 3 * 0 + 4 * 0) ^ 2)) ∨
       vz = ((5 : ℝ) ^ 2 / 2 + 3 * 0 + 4 * 0) / (3 ^ 2 + 4 ^ 2) * (0 - 5 * Real.sqrt (1 -
          (3 ^ 2 + 4 ^ 2) * (0 ^ 2 + 0 ^ 2) / (5 ^ 2 / 2 + 3 * 0 + 4 * 0) ^ 2))) ∧
      |vz| = min
        |((5 : ℝ) ^ 2 / 2 + 3 * 0 + 4 * 0) / (3 ^ 2 + 4 ^ 2) * (0 + 5 * Real.sqrt (1 -
          (3 ^ 2 + 4 ^ 2) * (0 ^ 2 + 0 ^ 2) / (5 ^ 2 / 2 + 3 * 0 + 4 * 0) ^ 2))|
        |((5 : ℝ) ^ 2 / 2 + 3 * 0 + 4 * 0) / (3 ^ 2 + 4 ^ 2) * (0 - 5 * Real.sqrt (1 -
          (3 ^ 2 + 4 ^ 2) * (0 ^ 2 + 0 ^ 2) / (5 ^ 2 / 2 + 3 * 0 + 4 * 0) ^ 2))| :=
  C2_analytic_solver 5 3 4 0 0 0 5 (by norm_num) (by norm_num) (by norm_num)

end NuReco
